import Mathlib

/-!
# Verification of the Reach-Frequency Calculator engine

Shallow embedding of `src/reach_frequency_calculator.py` (the validated /
clamped variant, class `ReachFrequencyCalculator`).  Python floats are
modelled as real numbers, Python dicts as insertion-ordered association
lists, and a Python `ZeroDivisionError` (float division by `0.0`) or
`ValueError` as the `Except.error` branch of `Except String _`.
-/

namespace ReachCalc

/-- The fields of a `ReachFrequencyCalculator` instance: the seven
constructor inputs followed by the mutable per-run state, initialised to
empty dicts / zero exactly as in `__init__`. -/
structure Calc where
  total_universe : ℝ
  total_impressions : ℝ
  max_reach_percent : ℝ
  global_overlap_factor : ℝ
  distributed_impressions : List (String × ℝ)
  channel_penetration : List (String × ℝ)
  efficiency_factors : List (String × ℝ)
  channel_reach : List (String × ℝ) := []
  channel_contributions : List (String × ℝ) := []
  raw_total_reach : ℝ := 0
  overlapped_reach : ℝ := 0
  final_reach : ℝ := 0
  average_frequency : ℝ := 0
  effective_reach : List (String × ℝ) := []

/-- A freshly constructed calculator, before validation: all computed
fields hold their `__init__` values. -/
def initCalc (U I mr g : ℝ) (di cp ef : List (String × ℝ)) : Calc :=
  { total_universe := U
    total_impressions := I
    max_reach_percent := mr
    global_overlap_factor := g
    distributed_impressions := di
    channel_penetration := cp
    efficiency_factors := ef }

/-- `__init__`: the four validation checks, in source order, each raising
`ValueError` with the source's message; on success the constructed
instance is returned. -/
noncomputable def mkCalculator (U I mr g : ℝ) (di cp ef : List (String × ℝ)) :
    Except String Calc :=
  if U < 1000000 then .error "Total universe must be at least 1,000,000"
  else if I < 10000 then .error "Total impressions must be at least 10,000"
  else if ¬ (0 ≤ mr ∧ mr ≤ 99.8) then
    .error "Maximum reach percentage must be between 0 and 99.8"
  else if ¬ (0.35 ≤ g ∧ g ≤ 0.6) then
    .error "Global overlap factor must be between 0.35 and 0.6"
  else .ok (initCalc U I mr g di cp ef)

/-- Sum of the values of an association list (Python `sum(d.values())`). -/
def sumVals (l : List (String × ℝ)) : ℝ := (l.map Prod.snd).sum

/-- The loop body of `calculate_channel_reach`: walks
`distributed_impressions` in order, skipping channels absent from
`channel_penetration`; accumulates the reach dict and
`total_channel_reach`.  When `impressions > 0` the source evaluates
`-impressions / max_possible_reach` before `np.exp`; Python raises
`ZeroDivisionError` when that divisor is `0.0`, modelled by the `.error`
branch. -/
noncomputable def calcChannelReachAux (U : ℝ) (cp : List (String × ℝ)) :
    List (String × ℝ) → List (String × ℝ) × ℝ →
    Except String (List (String × ℝ) × ℝ)
  | [], acc => .ok acc
  | (ch, imp) :: rest, (cr, tot) =>
    match List.lookup ch cp with
    | none => calcChannelReachAux U cp rest (cr, tot)
    | some pen =>
      let mpr := pen * U
      if imp > 0 then
        if mpr = 0 then .error "ZeroDivisionError: float division by zero"
        else
          let reach := min (mpr * (1 - Real.exp (-imp / mpr))) mpr
          let r := max 0 reach
          calcChannelReachAux U cp rest (cr ++ [(ch, r)], tot + r)
      else calcChannelReachAux U cp rest (cr ++ [(ch, (0 : ℝ))], tot)

/-- The contribution dict built at the end of `calculate_channel_reach`:
`reach / total * 100` per channel when the total is positive, otherwise
`0` for every key of `channel_reach`. -/
noncomputable def contributionsOf (cr : List (String × ℝ)) (tot : ℝ) :
    List (String × ℝ) :=
  if tot > 0 then cr.map (fun p => (p.1, p.2 / tot * 100))
  else cr.map (fun p => (p.1, (0 : ℝ)))

/-- `calculate_channel_reach`: fills `channel_reach` and
`channel_contributions`. -/
noncomputable def calculate_channel_reach (s : Calc) : Except String Calc :=
  match calcChannelReachAux s.total_universe s.channel_penetration
      s.distributed_impressions (s.channel_reach, 0) with
  | .error e => .error e
  | .ok (cr, tot) =>
    .ok { s with channel_reach := cr
                 channel_contributions := contributionsOf cr tot }

/-- The reach-weighted efficiency numerator
`sum(efficiency_factors.get(channel, 0.5) * reach for ...)`. -/
noncomputable def weightedEffNum (ef cr : List (String × ℝ)) : ℝ :=
  (cr.map (fun p => ((List.lookup p.1 ef).getD 0.5) * p.2)).sum

/-- `calculate_total_reach`: overlap discount, reach-weighted efficiency,
then the maximum-reach cap.  Note that the discounted value is kept in
the local `overlap_reach`; the instance field `overlapped_reach` is not
assigned by this method. -/
noncomputable def calculate_total_reach (s : Calc) : Calc :=
  if s.channel_reach = [] then
    { s with raw_total_reach := 0, final_reach := 0 }
  else
    let raw := sumVals s.channel_reach
    let overlap_reach := raw * (1 - s.global_overlap_factor)
    let total_weight := sumVals s.channel_reach
    let weighted_efficiency :=
      if total_weight > 0 then weightedEffNum s.efficiency_factors s.channel_reach / total_weight
      else 0.5
    let reach_after_efficiency := overlap_reach * weighted_efficiency
    let max_possible_reach := s.max_reach_percent / 100 * s.total_universe
    { s with raw_total_reach := raw
             final_reach := min (max 0 reach_after_efficiency) max_possible_reach }

/-- `calculate_frequency`: zero when `final_reach ≤ 0`, otherwise
`total_impressions / final_reach` clamped into `[1.0, 20.0]`. -/
noncomputable def calculate_frequency (s : Calc) : Calc :=
  if s.final_reach ≤ 0 then { s with average_frequency := 0 }
  else
    { s with average_frequency := min (max 1.0 (s.total_impressions / s.final_reach)) 20.0 }

/-- The dict key `f"{i}+"`. -/
def effKey (i : ℕ) : String := toString i ++ "+"

/-- The loop of `calculate_effective_reach`: for each threshold index the
running (unclamped) value decays by `(1 - x)` and the clamped value is
stored. -/
noncomputable def effLoop (x maxr : ℝ) (current : ℝ) :
    List ℕ → List (String × ℝ)
  | [] => []
  | i :: rest =>
    let c := current * (1 - x)
    (effKey i, min (max 0 c) maxr) :: effLoop x maxr c rest

/-- `calculate_effective_reach`: returns the updated instance together
with the method's return value.  In the degenerate branch the zero dict
is returned but `self.effective_reach` is left unchanged, exactly as in
the source. -/
noncomputable def calculate_effective_reach (s : Calc) (max_frequency : ℕ) :
    Calc × List (String × ℝ) :=
  if s.final_reach ≤ 0 ∨ s.average_frequency ≤ 0 then
    (s, (List.range' 2 (max_frequency - 1)).map (fun i => (effKey i, (0 : ℝ))))
  else
    let reach_percent := s.final_reach / s.total_universe * 100
    let x := 1 / max 1.0 s.average_frequency
    let er := effLoop x s.max_reach_percent reach_percent
        (List.range' 2 (max_frequency - 1))
    ({ s with effective_reach := er }, er)

/-- The dict returned by `run_all_calculations`. -/
structure ResultRecord where
  channel_contributions : List (String × ℝ)
  raw_reach_percent : ℝ
  overlapped_reach_percent : ℝ
  final_reach : ℝ
  final_reach_percent : ℝ
  average_frequency : ℝ
  effective_reach : List (String × ℝ)

/-- `run_all_calculations`: the four stages in order, then the result
dict assembled from the instance fields. -/
noncomputable def run_all_calculations (s : Calc) : Except String ResultRecord :=
  match calculate_channel_reach s with
  | .error e => .error e
  | .ok s1 =>
    let s2 := calculate_total_reach s1
    let s3 := calculate_frequency s2
    let s4 := (calculate_effective_reach s3 6).1
    .ok { channel_contributions := s4.channel_contributions
          raw_reach_percent := s4.raw_total_reach / s4.total_universe * 100
          overlapped_reach_percent := s4.overlapped_reach / s4.total_universe * 100
          final_reach := s4.final_reach
          final_reach_percent := s4.final_reach / s4.total_universe * 100
          average_frequency := s4.average_frequency
          effective_reach := s4.effective_reach }

/-- The §3 bounds on a PlanInput: the four scalar bounds checked by the
constructor together with the data-model ranges of the three channel
tables (non-negative impressions, penetrations in `[0,1]`, efficiency
factors in `[0,1]`). -/
def ValidPlan (U I mr g : ℝ) (di cp ef : List (String × ℝ)) : Prop :=
  1000000 ≤ U ∧ 10000 ≤ I ∧ (0 ≤ mr ∧ mr ≤ 99.8) ∧ (0.35 ≤ g ∧ g ≤ 0.6) ∧
  (∀ p ∈ di, 0 ≤ p.2) ∧ (∀ p ∈ cp, 0 ≤ p.2 ∧ p.2 ≤ 1) ∧
  (∀ p ∈ ef, 0 ≤ p.2 ∧ p.2 ≤ 1)

/-- A concrete state used to witness the effective-reach claims: a valid
plan mid-run with `final_reach = 500,000` and `average_frequency = 2`. -/
def wState : Calc :=
  { initCalc 1000000 20000 80 0.5 [] [] [] with
      final_reach := 500000
      average_frequency := 2 }
/-- A concrete fresh state for the C9 witness: one channel with zero
impressions. -/
def sC9 : Calc := initCalc 1000000 10000 50 0.5 [("A", 0)] [("A", 0.5)] []
/-- A concrete state for the C10 witness: one channel reach of `100`
and no explicit efficiency factors (default `0.5`). -/
def sC10 : Calc :=
  { initCalc 1000000 10000 50 0.5 [] [] [] with channel_reach := [("A", 100)] }

/-- The post-channel-stage state for `sC9`. -/
def s1C9 : Calc :=
  { sC9 with channel_reach := [("A", (0 : ℝ))]
             channel_contributions := [("A", (0 : ℝ))] }

/-- The result record produced by `run_all_calculations` on `sC9`. -/
def resC9 : ResultRecord :=
  { channel_contributions := [("A", (0 : ℝ))]
    raw_reach_percent := 0
    overlapped_reach_percent := 0
    final_reach := 0
    final_reach_percent := 0
    average_frequency := 0
    effective_reach := [] }

/-- The spec Section-8 scenario input: one channel "A" with 20M
impressions, penetration `0.8`, efficiency `0.7`, in a 10M universe. -/
def sC1 : Calc :=
  initCalc 10000000 50000000 90 0.5 [("A", 20000000)] [("A", 0.8)] [("A", 0.7)]

/-- The channel reach computed for channel "A" of `sC1`. -/
noncomputable def rC1 : ℝ :=
  max 0 (min (8000000 * (1 - Real.exp (-2.5))) 8000000)

/-- A valid input on which the raw reach exceeds the universe: two
channels with full penetration and ten impressions per head each. -/
def sC2 : Calc :=
  initCalc 1000000 20000000 90 0.5
    [("A", 10000000), ("B", 10000000)] [("A", 1), ("B", 1)] []

/-- The channel reach computed for each of the two channels of `sC2`. -/
noncomputable def rC2 : ℝ :=
  max 0 (min (1000000 * (1 - Real.exp (-10))) 1000000)

/-- The post-channel-stage state for `sC1`. -/
noncomputable def s1C1 : Calc :=
  { sC1 with channel_reach := [("A", rC1)]
             channel_contributions := contributionsOf [("A", rC1)] rC1 }

/-- The post-channel-stage state for `sC2`. -/
noncomputable def s1C2 : Calc :=
  { sC2 with channel_reach := [("A", rC2), ("B", rC2)]
             channel_contributions := contributionsOf [("A", rC2), ("B", rC2)] (rC2 + rC2) }

/-! ## Helper lemmas -/

@[simp] lemma totalReach_total_universe (s : Calc) :
    (calculate_total_reach s).total_universe = s.total_universe := by
  unfold calculate_total_reach; split_ifs <;> rfl

@[simp] lemma totalReach_total_impressions (s : Calc) :
    (calculate_total_reach s).total_impressions = s.total_impressions := by
  unfold calculate_total_reach; split_ifs <;> rfl

@[simp] lemma totalReach_max_reach_percent (s : Calc) :
    (calculate_total_reach s).max_reach_percent = s.max_reach_percent := by
  unfold calculate_total_reach; split_ifs <;> rfl

@[simp] lemma totalReach_overlapped_reach (s : Calc) :
    (calculate_total_reach s).overlapped_reach = s.overlapped_reach := by
  unfold calculate_total_reach; split_ifs <;> rfl

@[simp] lemma totalReach_channel_contributions (s : Calc) :
    (calculate_total_reach s).channel_contributions = s.channel_contributions := by
  unfold calculate_total_reach; split_ifs <;> rfl

@[simp] lemma totalReach_channel_reach (s : Calc) :
    (calculate_total_reach s).channel_reach = s.channel_reach := by
  unfold calculate_total_reach; split_ifs <;> rfl

@[simp] lemma totalReach_effective_reach (s : Calc) :
    (calculate_total_reach s).effective_reach = s.effective_reach := by
  unfold calculate_total_reach; split_ifs <;> rfl

@[simp] lemma freq_total_universe (s : Calc) :
    (calculate_frequency s).total_universe = s.total_universe := by
  unfold calculate_frequency; split_ifs <;> rfl

@[simp] lemma freq_max_reach_percent (s : Calc) :
    (calculate_frequency s).max_reach_percent = s.max_reach_percent := by
  unfold calculate_frequency; split_ifs <;> rfl

@[simp] lemma freq_overlapped_reach (s : Calc) :
    (calculate_frequency s).overlapped_reach = s.overlapped_reach := by
  unfold calculate_frequency; split_ifs <;> rfl

@[simp] lemma freq_raw_total_reach (s : Calc) :
    (calculate_frequency s).raw_total_reach = s.raw_total_reach := by
  unfold calculate_frequency; split_ifs <;> rfl

@[simp] lemma freq_final_reach (s : Calc) :
    (calculate_frequency s).final_reach = s.final_reach := by
  unfold calculate_frequency; split_ifs <;> rfl

@[simp] lemma freq_channel_contributions (s : Calc) :
    (calculate_frequency s).channel_contributions = s.channel_contributions := by
  unfold calculate_frequency; split_ifs <;> rfl

@[simp] lemma freq_effective_reach (s : Calc) :
    (calculate_frequency s).effective_reach = s.effective_reach := by
  unfold calculate_frequency; split_ifs <;> rfl

@[simp] lemma freq_total_impressions (s : Calc) :
    (calculate_frequency s).total_impressions = s.total_impressions := by
  unfold calculate_frequency; split_ifs <;> rfl

@[simp] lemma eff_total_universe (s : Calc) (mf : ℕ) :
    ((calculate_effective_reach s mf).1).total_universe = s.total_universe := by
  unfold calculate_effective_reach; split_ifs <;> rfl

@[simp] lemma eff_max_reach_percent (s : Calc) (mf : ℕ) :
    ((calculate_effective_reach s mf).1).max_reach_percent = s.max_reach_percent := by
  unfold calculate_effective_reach; split_ifs <;> rfl

@[simp] lemma eff_overlapped_reach (s : Calc) (mf : ℕ) :
    ((calculate_effective_reach s mf).1).overlapped_reach = s.overlapped_reach := by
  unfold calculate_effective_reach; split_ifs <;> rfl

@[simp] lemma eff_raw_total_reach (s : Calc) (mf : ℕ) :
    ((calculate_effective_reach s mf).1).raw_total_reach = s.raw_total_reach := by
  unfold calculate_effective_reach; split_ifs <;> rfl

@[simp] lemma eff_final_reach (s : Calc) (mf : ℕ) :
    ((calculate_effective_reach s mf).1).final_reach = s.final_reach := by
  unfold calculate_effective_reach; split_ifs <;> rfl

@[simp] lemma eff_average_frequency (s : Calc) (mf : ℕ) :
    ((calculate_effective_reach s mf).1).average_frequency = s.average_frequency := by
  unfold calculate_effective_reach; split_ifs <;> rfl

@[simp] lemma eff_channel_contributions (s : Calc) (mf : ℕ) :
    ((calculate_effective_reach s mf).1).channel_contributions = s.channel_contributions := by
  unfold calculate_effective_reach; split_ifs <;> rfl

/-- Unpacking a successful `calculate_channel_reach`. -/
lemma calculate_channel_reach_ok {s s' : Calc}
    (h : calculate_channel_reach s = .ok s') :
    ∃ cr tot, calcChannelReachAux s.total_universe s.channel_penetration
        s.distributed_impressions (s.channel_reach, 0) = .ok (cr, tot) ∧
      s' = { s with channel_reach := cr
                    channel_contributions := contributionsOf cr tot } := by
  unfold calculate_channel_reach at h
  rcases heq : calcChannelReachAux s.total_universe s.channel_penetration
      s.distributed_impressions (s.channel_reach, 0) with e | ⟨cr, tot⟩
  · rw [heq] at h; exact absurd h (by simp)
  · rw [heq] at h
    simp only [Except.ok.injEq] at h
    exact ⟨cr, tot, rfl, h.symm⟩

/-- Invariant of the channel-reach loop on success: the reach dict grows
by an extension of non-negative values whose sum is the accumulated
total. -/
lemma calcChannelReachAux_ok {U : ℝ} {cp : List (String × ℝ)} :
    ∀ (l cr0 : List (String × ℝ)) (t0 : ℝ) {cr : List (String × ℝ)} {tot : ℝ},
      calcChannelReachAux U cp l (cr0, t0) = .ok (cr, tot) →
      ∃ ext, cr = cr0 ++ ext ∧ tot = t0 + sumVals ext ∧ ∀ p ∈ ext, 0 ≤ p.2 := by
  intro l
  induction l with
  | nil =>
    intro cr0 t0 cr tot h
    simp only [calcChannelReachAux, Except.ok.injEq, Prod.mk.injEq] at h
    exact ⟨[], by simp [h.1.symm], by simp [h.2.symm, sumVals], by simp⟩
  | cons hd rest ih =>
    intro cr0 t0 cr tot h
    obtain ⟨ch, imp⟩ := hd
    simp only [calcChannelReachAux] at h
    split at h
    · exact ih cr0 t0 h
    · split at h
      · split at h
        · exact absurd h (by simp)
        · obtain ⟨ext, hcr, htot, hnn⟩ := ih _ _ h
          refine ⟨_ :: ext, by simpa using hcr, ?_, ?_⟩
          · simp only [sumVals, List.map_cons, List.sum_cons] at htot ⊢
            linarith [htot]
          · intro p hp
            rcases List.mem_cons.mp hp with h' | h'
            · rw [h']; exact le_max_left _ _
            · exact hnn p h'
      · obtain ⟨ext, hcr, htot, hnn⟩ := ih _ _ h
        refine ⟨(ch, (0 : ℝ)) :: ext, by simpa using hcr, ?_, ?_⟩
        · simp only [sumVals, List.map_cons, List.sum_cons] at htot ⊢
          linarith [htot]
        · intro p hp
          rcases List.mem_cons.mp hp with h' | h'
          · rw [h']
          · exact hnn p h'

/-- Closed form of the effective-reach loop over a contiguous index
range: the stored value at index `i` is the start value decayed
`i + 1 - a` times and then clamped. -/
lemma effLoop_range' (x m : ℝ) :
    ∀ (n a : ℕ) (c : ℝ),
      effLoop x m c (List.range' a n) =
      (List.range' a n).map
        (fun i => (effKey i, min (max 0 (c * (1 - x) ^ (i + 1 - a))) m)) := by
  intro n
  induction n with
  | zero => intro a c; simp [effLoop]
  | succ k ih =>
    intro a c
    rw [List.range'_succ]
    simp only [effLoop, List.map_cons]
    rw [show a + 1 - a = 1 by omega, pow_one]
    congr 1
    rw [ih (a + 1) (c * (1 - x))]
    refine List.map_congr_left ?_
    intro i hi
    have hai : a + 1 ≤ i := (List.mem_range'_1.mp hi).1
    have hv : c * (1 - x) * (1 - x) ^ (i + 1 - (a + 1)) = c * (1 - x) ^ (i + 1 - a) := by
      rw [show i + 1 - (a + 1) = i - a by omega, show i + 1 - a = (i - a) + 1 by omega,
        pow_succ]
      ring
    rw [hv]

/-- The contributions dict sums to `100` when the total is positive and
to `0` otherwise, provided the total is the sum of the reach values. -/
lemma sumVals_contributionsOf (cr : List (String × ℝ)) (tot : ℝ)
    (htot : tot = sumVals cr) :
    sumVals (contributionsOf cr tot) = if tot > 0 then 100 else 0 := by
  unfold contributionsOf
  split_ifs with hpos
  · have hne : tot ≠ 0 := ne_of_gt hpos
    simp only [sumVals, List.map_map]
    have : ((cr.map (fun p => (p.1, p.2 / tot * 100))).map Prod.snd) =
        cr.map (fun p => p.2 * (100 / tot)) := by
      simp only [List.map_map]
      refine List.map_congr_left ?_
      intro p _
      simp only [Function.comp_apply]
      field_simp
    simp only [List.map_map] at this ⊢
    rw [this, List.sum_map_mul_right]
    rw [sumVals] at htot
    rw [← htot]
    field_simp
  · simp only [sumVals, List.map_map]
    simp [Function.comp_def]

/-- If every channel that is present in the penetration table and has
positive impressions has a non-zero addressable ceiling, the
channel-reach loop succeeds. -/
lemma calcChannelReachAux_ok_of_ne {U : ℝ} {cp : List (String × ℝ)} :
    ∀ (l : List (String × ℝ)) (cr0 : List (String × ℝ)) (t0 : ℝ),
      (∀ p ∈ l, 0 < p.2 → ∀ pen, List.lookup p.1 cp = some pen → pen * U ≠ 0) →
      ∃ res, calcChannelReachAux U cp l (cr0, t0) = .ok res := by
  intro l
  induction l with
  | nil => intro cr0 t0 _; exact ⟨(cr0, t0), rfl⟩
  | cons hd rest ih =>
    intro cr0 t0 hsafe
    obtain ⟨ch, imp⟩ := hd
    simp only [calcChannelReachAux]
    rcases hlk : List.lookup ch cp with _ | pen
    · exact ih cr0 t0 (fun p hp => hsafe p (List.mem_cons_of_mem _ hp))
    · simp only
      by_cases himp : imp > 0
      · rw [if_pos himp]
        have hz : pen * U ≠ 0 :=
          hsafe (ch, imp) (List.mem_cons_self _ _) himp pen hlk
        rw [if_neg hz]
        exact ih _ _ (fun p hp => hsafe p (List.mem_cons_of_mem _ hp))
      · rw [if_neg himp]
        exact ih _ _ (fun p hp => hsafe p (List.mem_cons_of_mem _ hp))

/-- On success, every channel of the impressions table whose impressions
are not positive and which is present in the penetration table appears
in the resulting reach dict with reach `0`. -/
lemma calcChannelReachAux_zero_mem {U : ℝ} {cp : List (String × ℝ)} :
    ∀ (l cr0 : List (String × ℝ)) (t0 : ℝ) {cr : List (String × ℝ)} {tot : ℝ},
      calcChannelReachAux U cp l (cr0, t0) = .ok (cr, tot) →
      ∀ p ∈ l, ¬ 0 < p.2 → ∀ pen, List.lookup p.1 cp = some pen →
        (p.1, (0 : ℝ)) ∈ cr := by
  intro l
  induction l with
  | nil => intro cr0 t0 cr tot _ p hp; exact absurd hp (List.not_mem_nil p)
  | cons hd rest ih =>
    intro cr0 t0 cr tot h p hp hnpos pen hpen
    obtain ⟨ch, imp⟩ := hd
    simp only [calcChannelReachAux] at h
    rcases List.mem_cons.mp hp with hph | hprest
    · subst hph
      rw [hpen] at h
      simp only at h
      rw [if_neg hnpos] at h
      obtain ⟨ext, hcr, -, -⟩ := calcChannelReachAux_ok _ _ _ h
      rw [hcr]
      simp
    · split at h
      · exact ih _ _ h p hprest hnpos pen hpen
      · split at h
        · split at h
          · exact absurd h (by simp)
          · exact ih _ _ h p hprest hnpos pen hpen
        · exact ih _ _ h p hprest hnpos pen hpen

/-! ## Claim theorems -/

/-- C4: the constructor raises a descriptive ValidationError, before any
stage runs and producing no partial state, exactly when
`total_universe < 1,000,000` or `total_impressions < 10,000` or
`max_reach_percent` is outside `[0, 99.8]` or `global_overlap_factor`
is outside `[0.35, 0.6]`; at the boundaries `total_universe = 1,000,000`
and `global_overlap_factor = 0.6` succeed while `999,999` and `0.61`
raise. -/
theorem C4_constructor_validation :
    (∀ (U I mr g : ℝ) (di cp ef : List (String × ℝ)),
      (∃ e, mkCalculator U I mr g di cp ef = .error e) ↔
        (U < 1000000 ∨ I < 10000 ∨ ¬ (0 ≤ mr ∧ mr ≤ 99.8) ∨
          ¬ (0.35 ≤ g ∧ g ≤ 0.6))) ∧
    mkCalculator 1000000 10000 50 0.5 [] [] [] =
      .ok (initCalc 1000000 10000 50 0.5 [] [] []) ∧
    (∃ e, mkCalculator 999999 10000 50 0.5 [] [] [] = .error e) ∧
    mkCalculator 1000000 10000 50 0.6 [] [] [] =
      .ok (initCalc 1000000 10000 50 0.6 [] [] []) ∧
    (∃ e, mkCalculator 1000000 10000 50 0.61 [] [] [] = .error e) := by
  refine ⟨?_, ?_, ?_, ?_, ?_⟩
  · intro U I mr g di cp ef
    unfold mkCalculator
    split_ifs with h1 h2 h3 h4 <;>
      first
        | exact iff_of_true ⟨_, rfl⟩ (by tauto)
        | exact iff_of_false (by simp) (by tauto)
  · norm_num [mkCalculator]
  · norm_num [mkCalculator]
  · norm_num [mkCalculator]
  · norm_num [mkCalculator]

/-- In the non-degenerate branch, the stored effective-reach ladder is
the clamped geometric sequence
`reach_percent * (1 - x) ^ (i - 1)` over thresholds `i = 2 .. mf`. -/
lemma calculate_effective_reach_pos (s : Calc) (mf : ℕ)
    (hf : 0 < s.final_reach) (ha : 0 < s.average_frequency) :
    ((calculate_effective_reach s mf).1).effective_reach =
      (List.range' 2 (mf - 1)).map
        (fun i => (effKey i,
          min (max 0 ((s.final_reach / s.total_universe * 100) *
            (1 - 1 / max 1.0 s.average_frequency) ^ (i - 1))) s.max_reach_percent)) := by
  unfold calculate_effective_reach
  rw [if_neg (by push_neg; exact ⟨hf, ha⟩)]
  simp only
  rw [effLoop_range']
  refine List.map_congr_left ?_
  intro i hi
  have h2i : 2 ≤ i := (List.mem_range'_1.mp hi).1
  rw [show i + 1 - 2 = i - 1 by omega]

/-- C8: `average_frequency` is exactly `0` when `final_reach ≤ 0`, and
otherwise equals `total_impressions / final_reach` clamped into
`[1.0, 20.0]`, hence always lies in `[1, 20]` when `final_reach > 0`. -/
theorem C8_average_frequency (s : Calc) :
    (s.final_reach ≤ 0 → (calculate_frequency s).average_frequency = 0) ∧
    (0 < s.final_reach →
      (calculate_frequency s).average_frequency =
        min (max 1.0 (s.total_impressions / s.final_reach)) 20.0 ∧
      1 ≤ (calculate_frequency s).average_frequency ∧
      (calculate_frequency s).average_frequency ≤ 20) := by
  constructor
  · intro h
    unfold calculate_frequency
    rw [if_pos h]
  · intro h
    unfold calculate_frequency
    rw [if_neg (not_le.mpr h)]
    refine ⟨rfl, ?_, ?_⟩
    · show (1 : ℝ) ≤ min (max 1.0 (s.total_impressions / s.final_reach)) 20.0
      rw [le_min_iff]
      refine ⟨?_, by norm_num⟩
      have := le_max_left (1.0 : ℝ) (s.total_impressions / s.final_reach)
      linarith
    · show min (max 1.0 (s.total_impressions / s.final_reach)) 20.0 ≤ 20
      have := min_le_right (max 1.0 (s.total_impressions / s.final_reach)) (20.0 : ℝ)
      linarith

/-- Witness for C8 at two concrete states: a fresh state with
`final_reach = 0`, and a state with `final_reach = 5000`. -/
theorem C8_average_frequency_witness :
    (calculate_frequency (initCalc 1000000 10000 50 0.5 [] [] [])).average_frequency = 0 ∧
    (1 : ℝ) ≤ (calculate_frequency
      { initCalc 1000000 10000 50 0.5 [] [] [] with final_reach := 5000 }).average_frequency :=
  ⟨(C8_average_frequency _).1 (by norm_num [initCalc]),
    ((C8_average_frequency _).2 (by norm_num [initCalc])).2.1⟩

/-- C6: for positive final reach and frequency, every threshold
`i = 2 .. max_frequency` stores
`clamp(reach_percent * (1 - x) ^ (i - 1), 0, max_reach_percent)` — a
geometric decay ladder. -/
theorem C6_geometric_ladder (s : Calc) (mf : ℕ)
    (hf : 0 < s.final_reach) (ha : 0 < s.average_frequency) :
    ((calculate_effective_reach s mf).1).effective_reach =
      (List.range' 2 (mf - 1)).map
        (fun i => (effKey i,
          min (max 0 ((s.final_reach / s.total_universe * 100) *
            (1 - 1 / max 1.0 s.average_frequency) ^ (i - 1))) s.max_reach_percent)) :=
  calculate_effective_reach_pos s mf hf ha

/-- Witness for C6 at `wState` (thresholds 2+ .. 6+). -/
theorem C6_geometric_ladder_witness :
    0 < wState.final_reach ∧ 0 < wState.average_frequency ∧
    ((calculate_effective_reach wState 6).1).effective_reach =
      (List.range' 2 (6 - 1)).map
        (fun i => (effKey i,
          min (max 0 ((wState.final_reach / wState.total_universe * 100) *
            (1 - 1 / max 1.0 wState.average_frequency) ^ (i - 1))) wState.max_reach_percent)) :=
  ⟨by norm_num [wState, initCalc], by norm_num [wState, initCalc],
    C6_geometric_ladder wState 6 (by norm_num [wState, initCalc])
      (by norm_num [wState, initCalc])⟩

/-- C7: for positive final reach and frequency (and a positive
universe), the stored effective-reach values are monotone
non-increasing across the threshold ladder. -/
theorem C7_ladder_monotone (s : Calc) (mf : ℕ)
    (hU : 0 < s.total_universe)
    (hf : 0 < s.final_reach) (ha : 0 < s.average_frequency) :
    (((calculate_effective_reach s mf).1).effective_reach.map Prod.snd).Pairwise
      (fun a b => b ≤ a) := by
  rw [calculate_effective_reach_pos s mf hf ha]
  rw [List.map_map]
  rw [List.pairwise_map]
  have hrp : 0 ≤ s.final_reach / s.total_universe * 100 := by positivity
  have hx0 : 0 ≤ 1 - 1 / max 1.0 s.average_frequency := by
    have h1 := le_max_left (1.0 : ℝ) s.average_frequency
    have h2 : 1 / max 1.0 s.average_frequency ≤ 1 := by
      rw [div_le_one (by linarith)]
      linarith
    linarith
  have hx1 : 1 - 1 / max 1.0 s.average_frequency ≤ 1 := by
    have h1 : (0 : ℝ) < max 1.0 s.average_frequency := by
      have h2 := le_max_left (1.0 : ℝ) s.average_frequency
      linarith
    have : 0 ≤ 1 / max 1.0 s.average_frequency := by positivity
    linarith
  refine (List.pairwise_lt_range' 2 (mf - 1) 1 (by norm_num)).imp ?_
  intro i j hij
  simp only [Function.comp_apply]
  have hpow : (1 - 1 / max 1.0 s.average_frequency) ^ (j - 1) ≤
      (1 - 1 / max 1.0 s.average_frequency) ^ (i - 1) :=
    pow_le_pow_of_le_one hx0 hx1 (by omega)
  have hmul : s.final_reach / s.total_universe * 100 *
      (1 - 1 / max 1.0 s.average_frequency) ^ (j - 1) ≤
      s.final_reach / s.total_universe * 100 *
      (1 - 1 / max 1.0 s.average_frequency) ^ (i - 1) :=
    mul_le_mul_of_nonneg_left hpow hrp
  exact min_le_min (max_le_max le_rfl hmul) le_rfl

/-- Witness for C7 at `wState`. -/
theorem C7_ladder_monotone_witness :
    (((calculate_effective_reach wState 6).1).effective_reach.map Prod.snd).Pairwise
      (fun a b => b ≤ a) :=
  C7_ladder_monotone wState 6 (by norm_num [wState, initCalc])
    (by norm_num [wState, initCalc]) (by norm_num [wState, initCalc])

/-- Field values of `calculate_total_reach` in the non-empty branch. -/
lemma calculate_total_reach_spec (s : Calc) (h : ¬ s.channel_reach = []) :
    (calculate_total_reach s).raw_total_reach = sumVals s.channel_reach ∧
    (calculate_total_reach s).final_reach =
      min (max 0 (sumVals s.channel_reach * (1 - s.global_overlap_factor) *
        (if sumVals s.channel_reach > 0 then
          weightedEffNum s.efficiency_factors s.channel_reach / sumVals s.channel_reach
        else 0.5)))
        (s.max_reach_percent / 100 * s.total_universe) := by
  unfold calculate_total_reach
  rw [if_neg h]
  exact ⟨rfl, rfl⟩

/-- Field values of `calculate_total_reach` in the empty-guard branch. -/
lemma calculate_total_reach_empty (s : Calc) (h : s.channel_reach = []) :
    (calculate_total_reach s).raw_total_reach = 0 ∧
    (calculate_total_reach s).final_reach = 0 := by
  unfold calculate_total_reach
  rw [if_pos h]
  exact ⟨rfl, rfl⟩

/-- A successful `List.lookup` returns a pair of the list. -/
lemma lookup_mem {l : List (String × ℝ)} {a : String} {b : ℝ}
    (h : List.lookup a l = some b) : (a, b) ∈ l := by
  induction l with
  | nil => simp [List.lookup] at h
  | cons hd tl ih =>
    obtain ⟨k, v⟩ := hd
    rw [List.lookup] at h
    rcases hab : (a == k) with _ | _ <;> rw [hab] at h
    · exact List.mem_cons_of_mem _ (ih h)
    · simp only [Option.some.injEq] at h
      have : a = k := by simpa using hab
      subst this
      subst h
      exact List.mem_cons_self _ _

/-- The reach-weighted efficiency is at most the total weight, and
non-negative, whenever reaches are non-negative and all efficiency
factors lie in `[0,1]`. -/
lemma weightedEffNum_bounds (ef cr : List (String × ℝ))
    (hcr : ∀ p ∈ cr, 0 ≤ p.2) (hef : ∀ p ∈ ef, 0 ≤ p.2 ∧ p.2 ≤ 1) :
    0 ≤ weightedEffNum ef cr ∧ weightedEffNum ef cr ≤ sumVals cr := by
  have hw : ∀ p : String × ℝ, 0 ≤ (List.lookup p.1 ef).getD 0.5 ∧
      (List.lookup p.1 ef).getD 0.5 ≤ 1 := by
    intro p
    rcases hlk : List.lookup p.1 ef with _ | q
    · constructor <;> norm_num
    · simpa using hef (p.1, q) (lookup_mem hlk)
  constructor
  · apply List.sum_nonneg
    intro x hx
    obtain ⟨p, hp, rfl⟩ := List.mem_map.mp hx
    exact mul_nonneg (hw p).1 (hcr p hp)
  · unfold weightedEffNum sumVals
    apply List.sum_le_sum
    intro p hp
    exact mul_le_of_le_one_left (hcr p hp) (hw p).2

/-- C9: after the channel stage on a fresh state, the contributions sum
to exactly `100` when the total computed channel reach is positive and
to `0` when it is `0`; the zero case raises no error. -/
theorem C9_contributions_sum (s s' : Calc)
    (hfresh : s.channel_reach = [])
    (h : calculate_channel_reach s = .ok s') :
    (0 < sumVals s'.channel_reach → sumVals s'.channel_contributions = 100) ∧
    (sumVals s'.channel_reach = 0 → sumVals s'.channel_contributions = 0) := by
  obtain ⟨cr, tot, haux, hs'⟩ := calculate_channel_reach_ok h
  rw [hfresh] at haux
  obtain ⟨ext, hcr, htot, hnn⟩ := calcChannelReachAux_ok _ _ _ haux
  have htot' : tot = sumVals cr := by
    rw [htot, hcr]
    simp
  have hreach : s'.channel_reach = cr := by rw [hs']
  have hconts : s'.channel_contributions = contributionsOf cr tot := by rw [hs']
  rw [hreach, hconts, sumVals_contributionsOf cr tot htot']
  constructor
  · intro hpos
    rw [if_pos (by rw [htot']; exact hpos)]
  · intro hz
    rw [if_neg (by rw [htot', hz]; norm_num)]

/-- Evaluating the channel stage on `sC9`. -/
lemma sC9_eval : calculate_channel_reach sC9 = .ok
    { sC9 with channel_reach := [("A", (0 : ℝ))]
               channel_contributions := [("A", (0 : ℝ))] } := by
  unfold calculate_channel_reach sC9 initCalc
  norm_num [calcChannelReachAux, contributionsOf, List.lookup]

/-- Witness for C9: on `sC9` the total computed reach is `0` and the
contributions sum to `0`. -/
theorem C9_contributions_sum_witness :
    sumVals ({ sC9 with channel_reach := [("A", (0 : ℝ))]
                        channel_contributions := [("A", (0 : ℝ))] } : Calc).channel_reach = 0 ∧
    sumVals ({ sC9 with channel_reach := [("A", (0 : ℝ))]
                        channel_contributions := [("A", (0 : ℝ))] } : Calc).channel_contributions = 0 :=
  ⟨by norm_num [sumVals],
    (C9_contributions_sum sC9 _ rfl sC9_eval).2 (by norm_num [sumVals])⟩

/-- C10: with non-negative channel reaches and efficiency factors in
`[0,1]`, the total-reach stage never lets `final_reach` exceed the
overlap-discounted raw reach, hence (as the overlap factor is at least
`0.35`) not `0.65 × raw_total_reach`, and never `raw_total_reach`. -/
theorem C10_final_le_discounted_raw (s : Calc)
    (hcr : ∀ p ∈ s.channel_reach, 0 ≤ p.2)
    (hef : ∀ p ∈ s.efficiency_factors, 0 ≤ p.2 ∧ p.2 ≤ 1)
    (hg1 : 0.35 ≤ s.global_overlap_factor) (hg2 : s.global_overlap_factor ≤ 0.6) :
    (calculate_total_reach s).final_reach ≤
      (1 - s.global_overlap_factor) * (calculate_total_reach s).raw_total_reach ∧
    (calculate_total_reach s).final_reach ≤
      0.65 * (calculate_total_reach s).raw_total_reach ∧
    (calculate_total_reach s).final_reach ≤ (calculate_total_reach s).raw_total_reach := by
  by_cases hemp : s.channel_reach = []
  · obtain ⟨hraw, hfin⟩ := calculate_total_reach_empty s hemp
    rw [hraw, hfin]
    norm_num
  · obtain ⟨hraw, hfin⟩ := calculate_total_reach_spec s hemp
    set raw := sumVals s.channel_reach with hraw_def
    have hraw0 : 0 ≤ raw := by
      apply List.sum_nonneg
      intro x hx
      obtain ⟨p, hp, rfl⟩ := List.mem_map.mp hx
      exact hcr p hp
    have hover0 : 0 ≤ raw * (1 - s.global_overlap_factor) :=
      mul_nonneg hraw0 (by linarith)
    have hweff : 0 ≤ (if raw > 0 then weightedEffNum s.efficiency_factors s.channel_reach / raw
          else 0.5) ∧
        (if raw > 0 then weightedEffNum s.efficiency_factors s.channel_reach / raw
          else 0.5) ≤ 1 := by
      obtain ⟨hn0, hnle⟩ := weightedEffNum_bounds s.efficiency_factors s.channel_reach hcr hef
      split_ifs with hpos
      · exact ⟨div_nonneg hn0 hraw0, (div_le_one hpos).mpr hnle⟩
      · constructor <;> norm_num
    have hrae : raw * (1 - s.global_overlap_factor) *
        (if raw > 0 then weightedEffNum s.efficiency_factors s.channel_reach / raw
          else 0.5) ≤ raw * (1 - s.global_overlap_factor) :=
      mul_le_of_le_one_right hover0 hweff.2
    have hrae0 : 0 ≤ raw * (1 - s.global_overlap_factor) *
        (if raw > 0 then weightedEffNum s.efficiency_factors s.channel_reach / raw
          else 0.5) :=
      mul_nonneg hover0 hweff.1
    have hfinle : (calculate_total_reach s).final_reach ≤
        (1 - s.global_overlap_factor) * raw := by
      rw [hfin, mul_comm (1 - s.global_overlap_factor) raw]
      refine le_trans (min_le_left _ _) ?_
      rw [max_eq_right hrae0]
      exact hrae
    rw [hraw]
    refine ⟨hfinle, ?_, ?_⟩
    · nlinarith [hfinle]
    · nlinarith [hfinle]

/-- Witness for C10 at `sC10`. -/
theorem C10_final_le_discounted_raw_witness :
    (calculate_total_reach sC10).final_reach ≤
      (1 - sC10.global_overlap_factor) * (calculate_total_reach sC10).raw_total_reach ∧
    (calculate_total_reach sC10).final_reach ≤
      0.65 * (calculate_total_reach sC10).raw_total_reach ∧
    (calculate_total_reach sC10).final_reach ≤ (calculate_total_reach sC10).raw_total_reach :=
  C10_final_le_discounted_raw sC10
    (by intro p hp; simp only [sC10, List.mem_singleton] at hp; subst hp; norm_num)
    (by intro p hp; simp [sC10, initCalc] at hp)
    (by norm_num [sC10, initCalc]) (by norm_num [sC10, initCalc])

/-- C3 counterexample: a valid PlanInput (penetration `0` is inside the
documented range `[0,1]`) on which the Channel Reach Stage performs a
division whose denominator `max_possible_reach = 0 × total_universe` is
zero, raising `ZeroDivisionError`. -/
theorem C3_counterexample :
    ValidPlan 1000000 10000 50 0.5 [("A", 5)] [("A", 0)] [] ∧
    calculate_channel_reach (initCalc 1000000 10000 50 0.5 [("A", 5)] [("A", 0)] []) =
      .error "ZeroDivisionError: float division by zero" := by
  constructor
  · refine ⟨by norm_num, by norm_num, ⟨by norm_num, by norm_num⟩,
      ⟨by norm_num, by norm_num⟩, ?_, ?_, ?_⟩
    · intro p hp
      simp only [List.mem_singleton] at hp
      subst hp
      norm_num
    · intro p hp
      simp only [List.mem_singleton] at hp
      subst hp
      norm_num
    · intro p hp
      exact absurd hp (List.not_mem_nil p)
  · unfold calculate_channel_reach initCalc
    norm_num [calcChannelReachAux, List.lookup]

/-- C3 amended: provided every channel with positive impressions that is
present in the penetration table has positive penetration, the Channel
Reach Stage completes without a zero-denominator division, and a channel
with impressions `0` (present in the penetration table) gets reach `0`. -/
theorem C3_no_zero_division_amended (s : Calc)
    (hU : 0 < s.total_universe)
    (hpos : ∀ p ∈ s.distributed_impressions, 0 < p.2 →
      ∀ pen, List.lookup p.1 s.channel_penetration = some pen → 0 < pen) :
    ∃ s', calculate_channel_reach s = .ok s' ∧
      ∀ p ∈ s.distributed_impressions, p.2 = 0 →
        ∀ pen, List.lookup p.1 s.channel_penetration = some pen →
          (p.1, (0 : ℝ)) ∈ s'.channel_reach := by
  have hsafe : ∀ p ∈ s.distributed_impressions, 0 < p.2 →
      ∀ pen, List.lookup p.1 s.channel_penetration = some pen →
        pen * s.total_universe ≠ 0 := by
    intro p hp hip pen hlk
    exact ne_of_gt (mul_pos (hpos p hp hip pen hlk) hU)
  obtain ⟨res, hres⟩ := calcChannelReachAux_ok_of_ne
    s.distributed_impressions s.channel_reach 0 hsafe
  obtain ⟨cr, tot⟩ := res
  refine ⟨{ s with channel_reach := cr
                   channel_contributions := contributionsOf cr tot }, ?_, ?_⟩
  · unfold calculate_channel_reach
    rw [hres]
  · intro p hp hz pen hlk
    have hmem := calcChannelReachAux_zero_mem _ _ _ hres p hp
      (by rw [hz]; norm_num) pen hlk
    simpa using hmem

/-- Witness for the amended C3 at `sC9` (one channel, impressions `0`,
penetration `0.5`). -/
theorem C3_no_zero_division_amended_witness :
    ∃ s', calculate_channel_reach sC9 = .ok s' ∧
      ∀ p ∈ sC9.distributed_impressions, p.2 = 0 →
        ∀ pen, List.lookup p.1 sC9.channel_penetration = some pen →
          (p.1, (0 : ℝ)) ∈ s'.channel_reach :=
  C3_no_zero_division_amended sC9 (by norm_num [sC9, initCalc])
    (by
      intro p hp hip pen hlk
      simp only [sC9, initCalc, List.mem_singleton] at hp
      rw [hp] at hip
      norm_num at hip)

/-- The degenerate branch of `calculate_effective_reach` returns the
zero ladder but leaves the instance unchanged. -/
lemma calculate_effective_reach_degenerate (s : Calc) (mf : ℕ)
    (h : s.final_reach ≤ 0 ∨ s.average_frequency ≤ 0) :
    calculate_effective_reach s mf =
      (s, (List.range' 2 (mf - 1)).map (fun i => (effKey i, (0 : ℝ)))) := by
  unfold calculate_effective_reach
  rw [if_pos h]

/-- The channel stage on `sC9` produces `s1C9`. -/
lemma sC9_eval' : calculate_channel_reach sC9 = .ok s1C9 := sC9_eval

/-- The total-reach stage on `s1C9`: raw and final reach are both `0`. -/
lemma s2C9_fields :
    (calculate_total_reach s1C9).raw_total_reach = 0 ∧
    (calculate_total_reach s1C9).final_reach = 0 := by
  have hne : ¬ s1C9.channel_reach = [] := by simp [s1C9]
  obtain ⟨hraw, hfin⟩ := calculate_total_reach_spec s1C9 hne
  have hsum : sumVals s1C9.channel_reach = 0 := by
    norm_num [s1C9, sC9, initCalc, sumVals]
  refine ⟨by rw [hraw, hsum], ?_⟩
  rw [hfin, hsum]
  norm_num [s1C9, sC9, initCalc]

/-- Running the whole pipeline on `sC9` yields `resC9`. -/
lemma run_all_sC9 : run_all_calculations sC9 = .ok resC9 := by
  obtain ⟨hraw2, hfin2⟩ := s2C9_fields
  have hfin3 : (calculate_frequency (calculate_total_reach s1C9)).final_reach = 0 := by
    rw [freq_final_reach]; exact hfin2
  have havg3 : (calculate_frequency (calculate_total_reach s1C9)).average_frequency = 0 := by
    unfold calculate_frequency
    rw [if_pos (le_of_eq hfin2)]
  have hdeg := calculate_effective_reach_degenerate
    (calculate_frequency (calculate_total_reach s1C9)) 6 (Or.inl (le_of_eq hfin3))
  unfold run_all_calculations
  rw [sC9_eval']
  refine congrArg Except.ok ?_
  simp only [hdeg]
  simp only [freq_channel_contributions, freq_raw_total_reach, freq_total_universe,
    freq_overlapped_reach, freq_final_reach, freq_effective_reach,
    totalReach_channel_contributions, totalReach_total_universe,
    totalReach_overlapped_reach, totalReach_effective_reach,
    havg3, hraw2, hfin2]
  norm_num [s1C9, sC9, initCalc, resC9]

/-- The channel stage on `sC1`: one channel with reach `rC1`. -/
lemma sC1_eval : calculate_channel_reach sC1 = .ok s1C1 := by
  unfold calculate_channel_reach s1C1 sC1 initCalc rC1
  norm_num [calcChannelReachAux, List.lookup,
    show (("A" : String) == "A") = true from rfl]

/-- The channel stage on `sC2`: two channels, each with reach `rC2`. -/
lemma sC2_eval : calculate_channel_reach sC2 = .ok s1C2 := by
  unfold calculate_channel_reach s1C2 sC2 initCalc rC2
  norm_num [calcChannelReachAux, List.lookup,
    show (("A" : String) == "A") = true from rfl,
    show (("B" : String) == "A") = false from rfl,
    show (("B" : String) == "B") = true from rfl]

/-- `exp (-10) < 1/2`. -/
lemma exp_neg_ten_lt_half : Real.exp (-10) < 1 / 2 := by
  have h1 : Real.exp (-10) ≤ Real.exp (-1) := Real.exp_le_exp.mpr (by norm_num)
  have h2 : Real.exp (-1) = (Real.exp 1)⁻¹ := Real.exp_neg 1
  have h3 : (2.7182818283 : ℝ) < Real.exp 1 := Real.exp_one_gt_d9
  have h4 : (Real.exp 1)⁻¹ < 1 / 2 := by
    rw [inv_eq_one_div, div_lt_div_iff₀ (Real.exp_pos 1) (by norm_num)]
    linarith
  rw [h2] at h1
  linarith

/-- C1: on the spec's own Section-8 scenario input (a valid PlanInput),
the ResultRecord's `overlapped_reach_percent` is `0` even though the
claimed value `raw_reach_percent × (1 − global_overlap_factor)` is
positive: `calculate_total_reach` keeps the overlap-discounted reach in
a local variable and never assigns `self.overlapped_reach`. -/
theorem C1_overlapped_reach_percent_bug :
    ValidPlan 10000000 50000000 90 0.5 [("A", 20000000)] [("A", 0.8)] [("A", 0.7)] ∧
    ∃ r, run_all_calculations sC1 = .ok r ∧
      r.overlapped_reach_percent = 0 ∧
      0 < r.raw_reach_percent * (1 - sC1.global_overlap_factor) := by
  constructor
  · refine ⟨by norm_num, by norm_num, ⟨by norm_num, by norm_num⟩,
      ⟨by norm_num, by norm_num⟩, ?_, ?_, ?_⟩ <;>
      · intro p hp
        simp only [List.mem_singleton] at hp
        subst hp
        norm_num
  · have hrC1 : 0 < rC1 := by
      have hX : 0 < 8000000 * (1 - Real.exp (-2.5)) := by
        have h := Real.exp_lt_one_iff.mpr (show (-2.5 : ℝ) < 0 by norm_num)
        nlinarith
      unfold rC1
      have hmin : 0 < min (8000000 * (1 - Real.exp (-2.5))) 8000000 :=
        lt_min hX (by norm_num)
      exact lt_of_lt_of_le hmin (le_max_right _ _)
    have hne : ¬ s1C1.channel_reach = [] := by
      unfold s1C1
      simp
    have hraw : ((calculate_effective_reach (calculate_frequency
        (calculate_total_reach s1C1)) 6).1).raw_total_reach = rC1 := by
      simp only [eff_raw_total_reach, freq_raw_total_reach]
      rw [(calculate_total_reach_spec s1C1 hne).1]
      unfold s1C1
      norm_num [sumVals]
    have hU : ((calculate_effective_reach (calculate_frequency
        (calculate_total_reach s1C1)) 6).1).total_universe = 10000000 := by
      simp only [eff_total_universe, freq_total_universe, totalReach_total_universe]
      unfold s1C1 sC1 initCalc
      norm_num
    have hov : ((calculate_effective_reach (calculate_frequency
        (calculate_total_reach s1C1)) 6).1).overlapped_reach = 0 := by
      simp only [eff_overlapped_reach, freq_overlapped_reach, totalReach_overlapped_reach]
      unfold s1C1 sC1 initCalc
      norm_num
    unfold run_all_calculations
    rw [sC1_eval]
    refine ⟨_, rfl, ?_, ?_⟩
    · simp only [hov]
      norm_num
    · simp only [hraw, hU]
      unfold sC1 initCalc
      norm_num
      linarith

/-- C5: on a valid all-zero-impressions input the pipeline yields
`raw_total_reach = 0`, `final_reach = 0`, `average_frequency = 0`, and
`calculate_effective_reach` returns the zero ladder with keys
`"2+" .. "6+"` — but the ResultRecord's `effective_reach` is the empty
mapping, because the degenerate branch never stores its return value in
`self.effective_reach`. -/
theorem C5_zero_impressions_bug :
    ValidPlan 1000000 10000 50 0.5 [("A", 0)] [("A", 0.5)] [] ∧
    run_all_calculations sC9 = .ok resC9 ∧
    resC9.raw_reach_percent = 0 ∧ resC9.final_reach = 0 ∧
    resC9.average_frequency = 0 ∧ resC9.effective_reach = [] ∧
    (calculate_effective_reach (calculate_frequency (calculate_total_reach s1C9)) 6).2 =
      [("2+", (0 : ℝ)), ("3+", 0), ("4+", 0), ("5+", 0), ("6+", 0)] := by
  obtain ⟨hraw2, hfin2⟩ := s2C9_fields
  have hfin3 : (calculate_frequency (calculate_total_reach s1C9)).final_reach = 0 := by
    rw [freq_final_reach]; exact hfin2
  have hdeg := calculate_effective_reach_degenerate
    (calculate_frequency (calculate_total_reach s1C9)) 6 (Or.inl (le_of_eq hfin3))
  refine ⟨?_, run_all_sC9, rfl, rfl, rfl, rfl, ?_⟩
  · refine ⟨by norm_num, by norm_num, ⟨by norm_num, by norm_num⟩,
      ⟨by norm_num, by norm_num⟩, ?_, ?_, ?_⟩
    · intro p hp
      simp only [List.mem_singleton] at hp
      subst hp
      norm_num
    · intro p hp
      simp only [List.mem_singleton] at hp
      subst hp
      norm_num
    · intro p hp
      exact absurd hp (List.not_mem_nil p)
  · rw [hdeg]
    rfl

/-- C2 counterexample: a valid PlanInput (two channels with full
penetration, heavy impressions) whose `raw_reach_percent` exceeds 100 —
so not every output percentage lies in `[0, 100]`. -/
theorem C2_counterexample :
    ValidPlan 1000000 20000000 90 0.5
      [("A", 10000000), ("B", 10000000)] [("A", 1), ("B", 1)] [] ∧
    ∃ r, run_all_calculations sC2 = .ok r ∧ 100 < r.raw_reach_percent := by
  constructor
  · refine ⟨by norm_num, by norm_num, ⟨by norm_num, by norm_num⟩,
      ⟨by norm_num, by norm_num⟩, ?_, ?_, ?_⟩
    · intro p hp
      rcases List.mem_cons.mp hp with h | h
      · rw [h]; norm_num
      · simp only [List.mem_singleton] at h
        rw [h]; norm_num
    · intro p hp
      rcases List.mem_cons.mp hp with h | h
      · rw [h]; norm_num
      · simp only [List.mem_singleton] at h
        rw [h]; norm_num
    · intro p hp
      exact absurd hp (List.not_mem_nil p)
  · have he := exp_neg_ten_lt_half
    have he0 := Real.exp_pos (-10)
    have hrge : (500000 : ℝ) < rC2 := by
      unfold rC2
      have hXle : 1000000 * (1 - Real.exp (-10)) ≤ 1000000 := by nlinarith
      rw [min_eq_left hXle]
      have hXgt : (500000 : ℝ) < 1000000 * (1 - Real.exp (-10)) := by nlinarith
      exact lt_of_lt_of_le hXgt (le_max_right _ _)
    have hne : ¬ s1C2.channel_reach = [] := by
      unfold s1C2
      simp
    have hraw : ((calculate_effective_reach (calculate_frequency
        (calculate_total_reach s1C2)) 6).1).raw_total_reach = rC2 + rC2 := by
      simp only [eff_raw_total_reach, freq_raw_total_reach]
      rw [(calculate_total_reach_spec s1C2 hne).1]
      unfold s1C2
      norm_num [sumVals]
    have hU : ((calculate_effective_reach (calculate_frequency
        (calculate_total_reach s1C2)) 6).1).total_universe = 1000000 := by
      simp only [eff_total_universe, freq_total_universe, totalReach_total_universe]
      unfold s1C2 sC2 initCalc
      norm_num
    unfold run_all_calculations
    rw [sC2_eval]
    refine ⟨_, rfl, ?_⟩
    simp only [hraw, hU]
    linarith

/-- C2 amended: on every valid PlanInput whose run succeeds, every
output percentage other than `raw_reach_percent` lies in `[0, 100]`
— each channel contribution, `overlapped_reach_percent`,
`final_reach_percent` and every effective-reach value — and
`final_reach_percent ≤ max_reach_percent`. -/
theorem C2_percent_bounds_amended (U I mr g : ℝ) (di cp ef : List (String × ℝ))
    (r : ResultRecord) (hv : ValidPlan U I mr g di cp ef)
    (h : run_all_calculations (initCalc U I mr g di cp ef) = .ok r) :
    (∀ p ∈ r.channel_contributions, 0 ≤ p.2 ∧ p.2 ≤ 100) ∧
    (0 ≤ r.overlapped_reach_percent ∧ r.overlapped_reach_percent ≤ 100) ∧
    (0 ≤ r.final_reach_percent ∧ r.final_reach_percent ≤ 100 ∧
      r.final_reach_percent ≤ mr) ∧
    (∀ p ∈ r.effective_reach, 0 ≤ p.2 ∧ p.2 ≤ 100) := by
  obtain ⟨hU, hI, ⟨hmr0, hmr1⟩, ⟨hg0, hg1⟩, hdi, hcp, hef⟩ := hv
  have hU0 : (0 : ℝ) < U := by linarith
  unfold run_all_calculations at h
  rcases hch : calculate_channel_reach (initCalc U I mr g di cp ef) with e | s1
  · rw [hch] at h
    simp at h
  rw [hch] at h
  simp only [Except.ok.injEq] at h
  subst h
  obtain ⟨cr, tot, haux, hs1⟩ := calculate_channel_reach_ok hch
  have hfresh : (initCalc U I mr g di cp ef).channel_reach = [] := rfl
  rw [hfresh] at haux
  obtain ⟨ext, hcr, htot, hnn⟩ := calcChannelReachAux_ok _ _ _ haux
  rw [List.nil_append] at hcr
  subst hcr
  have htot' : tot = sumVals cr := by
    rw [htot]
    simp
  have hnn' : ∀ p ∈ cr, 0 ≤ p.2 := hnn
  have h1cc : s1.channel_contributions = contributionsOf cr tot := by rw [hs1]
  have h1U : s1.total_universe = U := by rw [hs1]; rfl
  have h1mr : s1.max_reach_percent = mr := by rw [hs1]; rfl
  have h1ov : s1.overlapped_reach = 0 := by rw [hs1]; rfl
  have h1eff : s1.effective_reach = [] := by rw [hs1]; rfl
  have hfin2 : 0 ≤ (calculate_total_reach s1).final_reach ∧
      (calculate_total_reach s1).final_reach ≤ mr / 100 * U := by
    by_cases hemp : s1.channel_reach = []
    · obtain ⟨-, hf⟩ := calculate_total_reach_empty s1 hemp
      rw [hf]
      exact ⟨le_refl 0, by positivity⟩
    · obtain ⟨-, hf⟩ := calculate_total_reach_spec s1 hemp
      rw [hf, h1mr, h1U]
      refine ⟨le_min (le_max_left _ _) (by positivity), min_le_right _ _⟩
  refine ⟨?_, ?_, ?_, ?_⟩
  · intro p hp
    simp only [eff_channel_contributions, freq_channel_contributions,
      totalReach_channel_contributions, h1cc] at hp
    unfold contributionsOf at hp
    split_ifs at hp with hpos
    · obtain ⟨q, hq, rfl⟩ := List.mem_map.mp hp
      have h0 : 0 ≤ q.2 := hnn' q hq
      have hle : q.2 ≤ tot := by
        rw [htot']
        exact List.single_le_sum (by
            intro x hx
            obtain ⟨pq, hpq, rfl⟩ := List.mem_map.mp hx
            exact hnn' pq hpq) _
          (List.mem_map_of_mem Prod.snd hq)
      constructor
      · exact mul_nonneg (div_nonneg h0 hpos.le) (by norm_num)
      · have hq1 : q.2 / tot ≤ 1 := (div_le_one hpos).mpr hle
        nlinarith
    · obtain ⟨q, hq, rfl⟩ := List.mem_map.mp hp
      norm_num
  · simp only [eff_overlapped_reach, freq_overlapped_reach,
      totalReach_overlapped_reach, h1ov]
    norm_num
  · simp only [eff_final_reach, freq_final_reach, eff_total_universe,
      freq_total_universe, totalReach_total_universe, h1U]
    have hfr := hfin2
    have hle_mr : (calculate_total_reach s1).final_reach / U * 100 ≤ mr := by
      rw [div_mul_eq_mul_div, div_le_iff₀ hU0]
      nlinarith [hfr.2]
    refine ⟨?_, ?_, hle_mr⟩
    · exact mul_nonneg (div_nonneg hfr.1 hU0.le) (by norm_num)
    · linarith
  · intro p hp
    by_cases hdeg : (calculate_frequency (calculate_total_reach s1)).final_reach ≤ 0 ∨
        (calculate_frequency (calculate_total_reach s1)).average_frequency ≤ 0
    · rw [show ((calculate_effective_reach (calculate_frequency
          (calculate_total_reach s1)) 6).1) = calculate_frequency (calculate_total_reach s1) by
            rw [calculate_effective_reach_degenerate _ 6 hdeg]] at hp
      simp only [freq_effective_reach, totalReach_effective_reach, h1eff] at hp
      exact absurd hp (List.not_mem_nil p)
    · push_neg at hdeg
      rw [calculate_effective_reach_pos _ 6 hdeg.1 hdeg.2] at hp
      obtain ⟨i, hi, rfl⟩ := List.mem_map.mp hp
      simp only [freq_max_reach_percent, totalReach_max_reach_percent, h1mr]
      constructor
      · exact le_min (le_max_left _ _) (by linarith)
      · exact le_trans (min_le_right _ _) (by linarith)

/-- Witness for the amended C2 at the all-zero-impressions input `sC9`,
whose result record is `resC9`. -/
theorem C2_percent_bounds_amended_witness :
    (∀ p ∈ resC9.channel_contributions, 0 ≤ p.2 ∧ p.2 ≤ 100) ∧
    (0 ≤ resC9.overlapped_reach_percent ∧ resC9.overlapped_reach_percent ≤ 100) ∧
    (0 ≤ resC9.final_reach_percent ∧ resC9.final_reach_percent ≤ 100 ∧
      resC9.final_reach_percent ≤ 50) ∧
    (∀ p ∈ resC9.effective_reach, 0 ≤ p.2 ∧ p.2 ≤ 100) :=
  C2_percent_bounds_amended 1000000 10000 50 0.5 [("A", 0)] [("A", 0.5)] [] resC9
    (by
      refine ⟨by norm_num, by norm_num, ⟨by norm_num, by norm_num⟩,
        ⟨by norm_num, by norm_num⟩, ?_, ?_, ?_⟩
      · intro p hp
        simp only [List.mem_singleton] at hp
        subst hp
        norm_num
      · intro p hp
        simp only [List.mem_singleton] at hp
        subst hp
        norm_num
      · intro p hp
        exact absurd hp (List.not_mem_nil p))
    run_all_sC9

end ReachCalc
